import Mathlib

/-!
Verification development for the mongo rpc metadata conversion layer
declared in src/src/mongo/rpc/metadata.h.  The repository sample holds only
the declarations header, so every operation body below is modelled from the
specification document and marked as such in its doc comment.  BSON
documents are shallowly embedded as ordered association lists of string
keys and typed values.
-/

namespace MongoRpc

/-- Kinds of BSON values, the closed set of value kinds named by the spec
document model that the conversion layer distinguishes. -/
inductive BSONKind where
  | kNull
  | kBool
  | kInt
  | kString
  | kDoc
  | kArray
deriving DecidableEq

/-- A BSON value: null, boolean, integer, string, nested document or array.
Conversions never depend on value contents beyond the kind. -/
inductive BSONValue where
  | vNull
  | vBool (b : Bool)
  | vInt (n : Int)
  | vString (s : String)
  | vDoc (fields : List (String × BSONValue))
  | vArray (elems : List BSONValue)

/-- A BSON document: an ordered list of string keyed fields. -/
abbrev BSONObj := List (String × BSONValue)

/-- The kind of a BSON value. -/
def BSONValue.kind : BSONValue → BSONKind
  | .vNull => .kNull
  | .vBool _ => .kBool
  | .vInt _ => .kInt
  | .vString _ => .kString
  | .vDoc _ => .kDoc
  | .vArray _ => .kArray

/-- Error kinds of the conversion layer, per the spec error handling design:
a present field of the wrong value kind, a metadata key with no legacy
location, and a hook reported failure. -/
inductive MetadataError where
  | malformedMetadataField (fieldName : String)
  | unknownMetadataField (fieldName : String)
  | hookError (message : String)
deriving DecidableEq

/-- A row of the field mapping table: the key of the field in the legacy
command or reply document, the key of the field inside the metadata
document, and the value kind the field must have. -/
structure FieldDescriptor where
  legacyKey : String
  metadataKey : String
  expectedKind : BSONKind
deriving DecidableEq

/-- Modelled from the spec: the field mapping table for request side
concepts (the table in the header comment of src/src/mongo/rpc/metadata.h
and the descriptor table of the spec).  The secondary read concept has two
legacy carriers: the slaveOk command field modelled here and the query
flags bit handled separately by the converters. -/
def requestFieldTable : List FieldDescriptor :=
  [⟨"slaveOk", "$secondaryOk", .kBool⟩,
   ⟨"$readPreference", "$readPreference", .kDoc⟩,
   ⟨"$impersonatedUsers", "$impersonatedUsers", .kArray⟩,
   ⟨"$impersonatedRoles", "$impersonatedRoles", .kArray⟩,
   ⟨"maxTimeMS", "$maxTimeMS", .kInt⟩]

/-- Modelled from the spec: the field mapping table for reply side
concepts (only the reply statistics field gleStats). -/
def replyFieldTable : List FieldDescriptor :=
  [⟨"gleStats", "$gleStats", .kDoc⟩]

/-- The bit position of the secondary read (slaveOk) bit inside the query
flags word; every other bit of the word is not interpreted by this layer. -/
def secondaryOkFlagBit : Nat := 2

/-- Returns an empty metadata object, as mongo rpc makeEmptyMetadata. -/
def makeEmptyMetadata : BSONObj := []

/-- Modelled from the spec: the shared upconversion walk over the fields of
a legacy document (the body of upconvertRequestMetadata and
upconvertReplyMetadata is absent from src, only declared in metadata.h).
Each field named by the table is checked against its expected kind, removed
from the document and inserted under its metadata key into the metadata
document; every other field is copied through unchanged and in order. -/
def upconvertFields (table : List FieldDescriptor) : BSONObj → Except MetadataError (BSONObj × BSONObj)
  | [] => .ok ([], [])
  | (k, v) :: rest =>
    match table.find? (fun d => d.legacyKey == k) with
    | some d =>
      if v.kind = d.expectedKind then
        match upconvertFields table rest with
        | .ok (doc, meta) => .ok (doc, (d.metadataKey, v) :: meta)
        | .error e => .error e
      else .error (.malformedMetadataField k)
    | none =>
      match upconvertFields table rest with
      | .ok (doc, meta) => .ok ((k, v) :: doc, meta)
      | .error e => .error e

/-- Insert or overwrite a field of a document. -/
def setField (obj : BSONObj) (key : String) (v : BSONValue) : BSONObj :=
  match obj with
  | [] => [(key, v)]
  | (k, w) :: rest => if k = key then (key, v) :: rest else (k, w) :: setField rest key v

/-- Modelled from the spec: mongo rpc upconvertRequestMetadata, whose body
is absent from src (metadata.h declares it only).  Strips every mapped
metadata field out of the legacy command object into a fresh metadata
object; if the secondary read bit of the query flags word is set, the
metadata field named by the dollar sign and secondaryOk is set to true. -/
def upconvertRequestMetadata (legacyCmdObj : BSONObj) (queryFlags : Nat) :
    Except MetadataError (BSONObj × BSONObj) :=
  match upconvertFields requestFieldTable legacyCmdObj with
  | .ok (cmd, meta) =>
    if queryFlags.testBit secondaryOkFlagBit then
      .ok (cmd, setField meta "$secondaryOk" (.vBool true))
    else
      .ok (cmd, meta)
  | .error e => .error e

/-- Modelled from the spec: the walk of downconvertRequestMetadata over the
metadata document.  The secondary read metadata field maps back to the
query flags bit; every other key is looked up in the table by metadata key
and reinserted at its legacy field name; a key with no legacy location is
an unknownMetadataField error, a mapped field of the wrong kind is a
malformedMetadataField error. -/
def downconvertRequestFields : BSONObj → Except MetadataError (BSONObj × Nat)
  | [] => .ok ([], 0)
  | (k, v) :: rest =>
    if k = "$secondaryOk" then
      match v with
      | .vBool b =>
        match downconvertRequestFields rest with
        | .ok (fields, flags) =>
          .ok (fields, if b then flags ||| 2 ^ secondaryOkFlagBit else flags)
        | .error e => .error e
      | _ => .error (.malformedMetadataField k)
    else
      match requestFieldTable.find? (fun d => d.metadataKey == k) with
      | some d =>
        if v.kind = d.expectedKind then
          match downconvertRequestFields rest with
          | .ok (fields, flags) => .ok ((d.legacyKey, v) :: fields, flags)
          | .error e => .error e
        else .error (.malformedMetadataField k)
      | none => .error (.unknownMetadataField k)

/-- Modelled from the spec: mongo rpc downconvertRequestMetadata, whose
body is absent from src (metadata.h declares it only).  Consumes the whole
metadata document, appending each mapped field to the command object at its
legacy key and turning the secondary read field into the query flags bit. -/
def downconvertRequestMetadata (cmdObj : BSONObj) (metadata : BSONObj) :
    Except MetadataError (BSONObj × Nat) :=
  match downconvertRequestFields metadata with
  | .ok (fields, flags) => .ok (cmdObj ++ fields, flags)
  | .error e => .error e

/-- Modelled from the spec: mongo rpc upconvertReplyMetadata, whose body is
absent from src (metadata.h declares it only).  Same walk as the request
side, restricted to the reply table. -/
def upconvertReplyMetadata (legacyReply : BSONObj) :
    Except MetadataError (BSONObj × BSONObj) :=
  upconvertFields replyFieldTable legacyReply

/-- Modelled from the spec: the walk of downconvertReplyMetadata over the
reply metadata document (no flags word exists on the reply side). -/
def downconvertReplyFields : BSONObj → Except MetadataError BSONObj
  | [] => .ok []
  | (k, v) :: rest =>
    match replyFieldTable.find? (fun d => d.metadataKey == k) with
    | some d =>
      if v.kind = d.expectedKind then
        match downconvertReplyFields rest with
        | .ok fields => .ok ((d.legacyKey, v) :: fields)
        | .error e => .error e
      else .error (.malformedMetadataField k)
    | none => .error (.unknownMetadataField k)

/-- Modelled from the spec: mongo rpc downconvertReplyMetadata, whose body
is absent from src (metadata.h declares it only). -/
def downconvertReplyMetadata (commandReply : BSONObj) (replyMetadata : BSONObj) :
    Except MetadataError BSONObj :=
  match downconvertReplyFields replyMetadata with
  | .ok fields => .ok (commandReply ++ fields)
  | .error e => .error e

/-- Modelled from the spec: the call scoped operation context, minimally
carrying the secondary read permission attribute. -/
structure OperationContext where
  secondaryOk : Bool
deriving DecidableEq

/-- A request metadata writer hook: takes the metadata builder state and
returns the extended state or an error, as mongo rpc RequestMetadataWriter. -/
abbrev RequestMetadataWriter := BSONObj → Except MetadataError BSONObj

/-- Modelled from the spec: serialization of the context attributes into
the metadata builder, performed by writeRequestMetadata before any hook
runs. -/
def writeContextMetadata (txn : OperationContext) (metadataBob : BSONObj) : BSONObj :=
  if txn.secondaryOk then metadataBob ++ [("$secondaryOk", .vBool true)] else metadataBob

/-- Modelled from the spec: run the registered writer hooks in registration
order over the builder; the first failure aborts the sequence, returning
the builder as already written together with that hook error. -/
def runRequestMetadataWriters : List RequestMetadataWriter → BSONObj → BSONObj × Option MetadataError
  | [], bob => (bob, none)
  | w :: ws, bob =>
    match w bob with
    | .ok bob2 => runRequestMetadataWriters ws bob2
    | .error e => (bob, some e)

/-- Modelled from the spec: mongo rpc writeRequestMetadata, whose body is
absent from src (metadata.h declares it only).  Serializes the context into
the builder, then runs each registered writer hook in registration order,
stopping at the first failure. -/
def writeRequestMetadata (txn : OperationContext) (writers : List RequestMetadataWriter)
    (metadataBob : BSONObj) : BSONObj × Option MetadataError :=
  runRequestMetadataWriters writers (writeContextMetadata txn metadataBob)

/-- Whether a key is a legacy command field key of the request table. -/
def isRequestLegacyKey (k : String) : Bool :=
  (requestFieldTable.find? (fun d => d.legacyKey == k)).isSome

/-- Whether a key is a metadata document key of the request table. -/
def isRequestMetadataKey (k : String) : Bool :=
  (requestFieldTable.find? (fun d => d.metadataKey == k)).isSome

/-- Whether a key is a legacy reply field key of the reply table. -/
def isReplyLegacyKey (k : String) : Bool :=
  (replyFieldTable.find? (fun d => d.legacyKey == k)).isSome

/-- Whether a key is a metadata document key of the reply table. -/
def isReplyMetadataKey (k : String) : Bool :=
  (replyFieldTable.find? (fun d => d.metadataKey == k)).isSome

/-- Whether a document holds no legacy request table key. -/
def hasNoRequestLegacyKeys (obj : BSONObj) : Bool :=
  obj.all (fun f => !(isRequestLegacyKey f.1))

/-- Whether a document holds no legacy reply table key. -/
def hasNoReplyLegacyKeys (obj : BSONObj) : Bool :=
  obj.all (fun f => !(isReplyLegacyKey f.1))

/-- Whether a document holds a field with the given key. -/
def hasKey (obj : BSONObj) (k : String) : Bool :=
  obj.any (fun f => f.1 == k)

/-- Whether a conversion result is a success. -/
def resultIsOk {α : Type} : Except MetadataError α → Bool
  | .ok _ => true
  | .error _ => false

/-- Whether a conversion result is an unknownMetadataField error. -/
def resultIsUnknownFieldError {α : Type} : Except MetadataError α → Bool
  | .error (.unknownMetadataField _) => true
  | _ => false

/-- Whether a conversion result is a malformedMetadataField error. -/
def resultIsMalformedFieldError {α : Type} : Except MetadataError α → Bool
  | .error (.malformedMetadataField _) => true
  | _ => false

/-- Whether an error is a malformedMetadataField error. -/
def isMalformedError : MetadataError → Bool
  | .malformedMetadataField _ => true
  | _ => false

/-- The field name an error reports. -/
def errorFieldName : MetadataError → String
  | .malformedMetadataField k => k
  | .unknownMetadataField k => k
  | .hookError m => m

/-- Whether every field of a metadata document that the request table maps
has the value kind its descriptor expects. -/
def mappedRequestFieldsWellKinded (m : BSONObj) : Bool :=
  m.all (fun f =>
    match requestFieldTable.find? (fun d => d.metadataKey == f.1) with
    | some d => f.2.kind == d.expectedKind
    | none => true)

/-- The round trip of the request converters: upconvert and then feed the
resulting pair to downconvert. -/
def requestRoundTrip (c : BSONObj) (f : Nat) : Except MetadataError (BSONObj × Nat) :=
  match upconvertRequestMetadata c f with
  | .ok p => downconvertRequestMetadata p.1 p.2
  | .error e => .error e

theorem filter_filter_self {α : Type} (p : α → Bool) (l : List α) :
    (l.filter p).filter p = l.filter p := by
  induction l with
  | nil => rfl
  | cons a l ih =>
    cases h : p a <;> simp [List.filter_cons, h, ih]

theorem find?_isSome_of_mem {α : Type} (p : α → Bool) (l : List α) (a : α)
    (ha : a ∈ l) (hp : p a = true) : (l.find? p).isSome = true := by
  induction l with
  | nil => cases ha
  | cons b l ih =>
    cases hb : p b with
    | true => simp [List.find?, hb]
    | false =>
      rcases List.mem_cons.mp ha with h | h
      · subst h; rw [hp] at hb; cases hb
      · simpa [List.find?, hb] using ih h

theorem hasNoRequestLegacyKeys_iff (c : BSONObj) :
    hasNoRequestLegacyKeys c = true ↔
      ∀ f ∈ c, requestFieldTable.find? (fun d => d.legacyKey == f.1) = none := by
  simp [hasNoRequestLegacyKeys, isRequestLegacyKey, List.all_eq_true,
    Option.not_isSome_iff_eq_none]

theorem hasNoReplyLegacyKeys_iff (c : BSONObj) :
    hasNoReplyLegacyKeys c = true ↔
      ∀ f ∈ c, replyFieldTable.find? (fun d => d.legacyKey == f.1) = none := by
  simp [hasNoReplyLegacyKeys, isReplyLegacyKey, List.all_eq_true,
    Option.not_isSome_iff_eq_none]

theorem upconvertFields_append_clean (table : List FieldDescriptor) (r l : BSONObj)
    (h : ∀ f ∈ r, table.find? (fun d => d.legacyKey == f.1) = none) :
    upconvertFields table (r ++ l) =
      match upconvertFields table l with
      | .ok p => .ok (r ++ p.1, p.2)
      | .error e => .error e := by
  induction r with
  | nil =>
    cases hl : upconvertFields table l with
    | ok p => simp [hl]
    | error e => simp [hl]
  | cons f r ih =>
    obtain ⟨k, v⟩ := f
    have hf : table.find? (fun d => d.legacyKey == k) = none := h (k, v) (by simp)
    have hr : ∀ f ∈ r, table.find? (fun d => d.legacyKey == f.1) = none := by
      intro f hmem
      exact h f (List.mem_cons_of_mem _ hmem)
    cases hl : upconvertFields table l with
    | ok p =>
      have hih := ih hr
      rw [hl] at hih
      dsimp only at hih
      simp [upconvertFields, hf, hih]
    | error e =>
      have hih := ih hr
      rw [hl] at hih
      dsimp only at hih
      simp [upconvertFields, hf, hih]

theorem upconvertFields_clean (table : List FieldDescriptor) (l : BSONObj)
    (h : ∀ f ∈ l, table.find? (fun d => d.legacyKey == f.1) = none) :
    upconvertFields table l = .ok (l, []) := by
  have happ := upconvertFields_append_clean table l [] h
  simpa [upconvertFields] using happ

theorem upconvertFields_filter (table : List FieldDescriptor) :
    ∀ l doc meta, upconvertFields table l = .ok (doc, meta) →
      doc = l.filter (fun f => !((table.find? (fun d => d.legacyKey == f.1)).isSome)) := by
  intro l
  induction l with
  | nil =>
    intro doc meta h
    simp [upconvertFields] at h
    simp [h.1]
  | cons f rest ih =>
    obtain ⟨k, v⟩ := f
    intro doc meta h
    cases hk : table.find? (fun d => d.legacyKey == k) with
    | some d =>
      simp only [upconvertFields, hk] at h
      by_cases hkind : v.kind = d.expectedKind
      · rw [if_pos hkind] at h
        cases hrec : upconvertFields table rest with
        | ok p =>
          rw [hrec] at h
          simp only [Except.ok.injEq, Prod.mk.injEq] at h
          obtain ⟨hdoc, _⟩ := h
          simp [List.filter_cons, hk, ← hdoc, ih p.1 p.2 (by rw [hrec])]
        | error e => rw [hrec] at h; cases h
      · rw [if_neg hkind] at h; cases h
    | none =>
      simp only [upconvertFields, hk] at h
      cases hrec : upconvertFields table rest with
      | ok p =>
        rw [hrec] at h
        simp only [Except.ok.injEq, Prod.mk.injEq] at h
        obtain ⟨hdoc, _⟩ := h
        simp [List.filter_cons, hk, ← hdoc, ih p.1 p.2 (by rw [hrec])]
      | error e => rw [hrec] at h; cases h

theorem upconvertFields_error (table : List FieldDescriptor) :
    ∀ l e, upconvertFields table l = .error e →
      ∃ k v d, e = .malformedMetadataField k ∧ (k, v) ∈ l ∧
        table.find? (fun d2 => d2.legacyKey == k) = some d ∧ v.kind ≠ d.expectedKind := by
  intro l
  induction l with
  | nil => intro e h; cases h
  | cons f rest ih =>
    obtain ⟨k, v⟩ := f
    intro e h
    cases hk : table.find? (fun d => d.legacyKey == k) with
    | some d =>
      simp only [upconvertFields, hk] at h
      by_cases hkind : v.kind = d.expectedKind
      · rw [if_pos hkind] at h
        cases hrec : upconvertFields table rest with
        | ok p => rw [hrec] at h; cases h
        | error e2 =>
          rw [hrec] at h
          simp only [Except.error.injEq] at h
          obtain ⟨k2, v2, d2, he, hmem, hfind, hkind2⟩ := ih e2 hrec
          exact ⟨k2, v2, d2, by rw [← h, he], List.mem_cons_of_mem _ hmem, hfind, hkind2⟩
      · rw [if_neg hkind] at h
        simp only [Except.error.injEq] at h
        exact ⟨k, v, d, h.symm, by simp, hk, hkind⟩
    | none =>
      simp only [upconvertFields, hk] at h
      cases hrec : upconvertFields table rest with
      | ok p => rw [hrec] at h; cases h
      | error e2 =>
        rw [hrec] at h
        simp only [Except.error.injEq] at h
        obtain ⟨k2, v2, d2, he, hmem, hfind, hkind2⟩ := ih e2 hrec
        exact ⟨k2, v2, d2, by rw [← h, he], List.mem_cons_of_mem _ hmem, hfind, hkind2⟩

theorem upconvertFields_error_of_badfield (table : List FieldDescriptor) :
    ∀ l k v d, (k, v) ∈ l → table.find? (fun d2 => d2.legacyKey == k) = some d →
      v.kind ≠ d.expectedKind → ∃ e, upconvertFields table l = .error e := by
  intro l
  induction l with
  | nil => intro k v d hmem _ _; cases hmem
  | cons g rest ih =>
    obtain ⟨k2, v2⟩ := g
    intro k v d hmem hfind hkind
    rcases List.mem_cons.mp hmem with hh | hh
    · injection hh with hk hv
      subst hk
      subst hv
      simp only [upconvertFields, hfind, if_neg hkind]
      exact ⟨.malformedMetadataField k, rfl⟩
    · obtain ⟨e2, he2⟩ := ih k v d hh hfind hkind
      cases hfd : table.find? (fun d2 => d2.legacyKey == k2) with
      | some d2 =>
        by_cases hk2 : v2.kind = d2.expectedKind
        · simp only [upconvertFields, hfd, if_pos hk2, he2]
          exact ⟨e2, rfl⟩
        · simp only [upconvertFields, hfd, if_neg hk2]
          exact ⟨.malformedMetadataField k2, rfl⟩
      | none =>
        simp only [upconvertFields, hfd, he2]
        exact ⟨e2, rfl⟩

theorem kind_bool_exists (v : BSONValue) (h : v.kind = .kBool) : ∃ b, v = .vBool b := by
  cases v <;> simp [BSONValue.kind] at h ⊢

theorem downconvertRequestFields_ok_spec :
    ∀ m out, downconvertRequestFields m = .ok out →
      (∀ f ∈ m, isRequestMetadataKey f.1 = true) ∧
      (∀ f ∈ out.1, isRequestLegacyKey f.1 = true) := by
  intro m
  induction m with
  | nil =>
    intro out h
    simp only [downconvertRequestFields, Except.ok.injEq] at h
    constructor
    · intro f hf; cases hf
    · intro f hf; rw [← h] at hf; cases hf
  | cons g rest ih =>
    obtain ⟨k, v⟩ := g
    intro out h
    by_cases hsec : k = "$secondaryOk"
    · subst hsec
      simp only [downconvertRequestFields, eq_self_iff_true, if_true] at h
      cases v with
      | vBool b =>
        cases hrec : downconvertRequestFields rest with
        | ok p =>
          rw [hrec] at h
          obtain ⟨fields, flags⟩ := p
          simp only [Except.ok.injEq] at h
          obtain ⟨ih1, ih2⟩ := ih (fields, flags) hrec
          constructor
          · intro f hf
            rcases List.mem_cons.mp hf with hh | hh
            · rw [hh]; rfl
            · exact ih1 f hh
          · intro f hf
            rw [← h] at hf
            exact ih2 f hf
        | error e => rw [hrec] at h; cases h
      | vNull => cases h
      | vInt n => cases h
      | vString s => cases h
      | vDoc d => cases h
      | vArray a => cases h
    · simp only [downconvertRequestFields, if_neg hsec] at h
      cases hfind : requestFieldTable.find? (fun d => d.metadataKey == k) with
      | none => rw [hfind] at h; cases h
      | some d =>
        rw [hfind] at h
        by_cases hkind : v.kind = d.expectedKind
        · simp only [if_pos hkind] at h
          cases hrec : downconvertRequestFields rest with
          | ok p =>
            rw [hrec] at h
            obtain ⟨fields, flags⟩ := p
            simp only [Except.ok.injEq] at h
            obtain ⟨ih1, ih2⟩ := ih (fields, flags) hrec
            constructor
            · intro f hf
              rcases List.mem_cons.mp hf with hh | hh
              · rw [hh]
                simp [isRequestMetadataKey, hfind]
              · exact ih1 f hh
            · intro f hf
              rw [← h] at hf
              rcases List.mem_cons.mp hf with hh | hh
              · rw [hh]
                exact find?_isSome_of_mem _ _ d (List.mem_of_find?_eq_some hfind) (by simp)
              · exact ih2 f hh
          | error e => rw [hrec] at h; cases h
        · simp only [if_neg hkind] at h
          cases h

theorem downconvertReplyFields_ok_spec :
    ∀ m out, downconvertReplyFields m = .ok out →
      (∀ f ∈ m, isReplyMetadataKey f.1 = true) ∧
      (∀ f ∈ out, isReplyLegacyKey f.1 = true) := by
  intro m
  induction m with
  | nil =>
    intro out h
    simp only [downconvertReplyFields, Except.ok.injEq] at h
    constructor
    · intro f hf; cases hf
    · intro f hf; rw [← h] at hf; cases hf
  | cons g rest ih =>
    obtain ⟨k, v⟩ := g
    intro out h
    simp only [downconvertReplyFields] at h
    cases hfind : replyFieldTable.find? (fun d => d.metadataKey == k) with
    | none => rw [hfind] at h; cases h
    | some d =>
      rw [hfind] at h
      by_cases hkind : v.kind = d.expectedKind
      · simp only [if_pos hkind] at h
        cases hrec : downconvertReplyFields rest with
        | ok fields =>
          rw [hrec] at h
          simp only [Except.ok.injEq] at h
          obtain ⟨ih1, ih2⟩ := ih fields hrec
          constructor
          · intro f hf
            rcases List.mem_cons.mp hf with hh | hh
            · rw [hh]
              simp [isReplyMetadataKey, hfind]
            · exact ih1 f hh
          · intro f hf
            rw [← h] at hf
            rcases List.mem_cons.mp hf with hh | hh
            · rw [hh]
              exact find?_isSome_of_mem _ _ d (List.mem_of_find?_eq_some hfind) (by simp)
            · exact ih2 f hh
        | error e => rw [hrec] at h; cases h
      · simp only [if_neg hkind] at h
        cases h

theorem downconvertRequestFields_unknown :
    ∀ m, m.any (fun f => !(isRequestMetadataKey f.1)) = true →
      mappedRequestFieldsWellKinded m = true →
      resultIsUnknownFieldError (downconvertRequestFields m) = true := by
  intro m
  induction m with
  | nil => intro hany; cases hany
  | cons g rest ih =>
    obtain ⟨k, v⟩ := g
    intro hany hwk
    rw [List.any_cons] at hany
    have hwk2 := hwk
    rw [mappedRequestFieldsWellKinded, List.all_cons] at hwk2
    obtain ⟨hwkHead, hwkRest⟩ := Bool.and_eq_true_iff.mp hwk2
    by_cases hmk : isRequestMetadataKey k = true
    · have hrestAny : rest.any (fun f => !(isRequestMetadataKey f.1)) = true := by
        rcases Bool.or_eq_true_iff.mp hany with hh | hh
        · rw [hmk] at hh; cases hh
        · exact hh
      have hih := ih hrestAny hwkRest
      have hrecErr : ∃ u, downconvertRequestFields rest = .error (.unknownMetadataField u) := by
        cases hrec : downconvertRequestFields rest with
        | ok p => rw [hrec] at hih; cases hih
        | error e =>
          rw [hrec] at hih
          cases e with
          | unknownMetadataField u => exact ⟨u, rfl⟩
          | malformedMetadataField u => cases hih
          | hookError u => cases hih
      obtain ⟨u, hrec⟩ := hrecErr
      by_cases hsec : k = "$secondaryOk"
      · subst hsec
        have hkBool : (v.kind == BSONKind.kBool) = true := hwkHead
        obtain ⟨b, hb⟩ := kind_bool_exists v (by simpa using hkBool)
        subst hb
        simp [downconvertRequestFields, hrec, resultIsUnknownFieldError]
      · obtain ⟨d, hfind⟩ := Option.isSome_iff_exists.mp hmk
        have hkd : (v.kind == d.expectedKind) = true := by
          have := hwkHead
          rw [hfind] at this
          exact this
        simp only [downconvertRequestFields, if_neg hsec, hfind,
          if_pos (by simpa using hkd : v.kind = d.expectedKind), hrec]
        rfl
    · have hfind : requestFieldTable.find? (fun d => d.metadataKey == k) = none := by
        rw [isRequestMetadataKey] at hmk
        exact Option.not_isSome_iff_eq_none.mp (by simpa using hmk)
      have hsec : ¬(k = "$secondaryOk") := by
        intro hk
        subst hk
        exact hmk rfl
      simp only [downconvertRequestFields, if_neg hsec, hfind]
      rfl

/-- C1 counterexample: with a query flags word whose set bit is not the
secondary read bit, the round trip returns flags word zero, not the
original word, because upconversion has no flags output to carry it. -/
theorem requestRoundTripFlagsCounterexample :
    requestRoundTrip [("ping", .vInt 1)] 1 = .ok ([("ping", .vInt 1)], 0) ∧ (0 : Nat) ≠ 1 :=
  ⟨rfl, by decide⟩

/-- C1 (amended): for every command document with no mapping table legacy
key and every flags word that sets no bit besides the secondary read bit,
downconverting the result of upconverting yields exactly the original pair,
with the untouched fields preserved exactly. -/
theorem requestMetadataRoundTrip (c : BSONObj) (h : hasNoRequestLegacyKeys c = true)
    (F : Nat) (hF : F = 0 ∨ F = 2 ^ secondaryOkFlagBit) :
    requestRoundTrip c F = .ok (c, F) := by
  have hclean := (hasNoRequestLegacyKeys_iff c).mp h
  have hup := upconvertFields_clean requestFieldTable c hclean
  rcases hF with hF | hF <;> subst hF
  · have hbit : Nat.testBit 0 secondaryOkFlagBit = false := by decide
    simp [requestRoundTrip, upconvertRequestMetadata, hup, hbit,
      downconvertRequestMetadata, downconvertRequestFields]
  · have hbit : Nat.testBit (2 ^ secondaryOkFlagBit) secondaryOkFlagBit = true := by decide
    simp [requestRoundTrip, upconvertRequestMetadata, hup, hbit,
      downconvertRequestMetadata, downconvertRequestFields, setField, Nat.zero_or]

/-- Witness for requestMetadataRoundTrip at a concrete command document and
the secondary read mask. -/
theorem requestMetadataRoundTripWitness :
    requestRoundTrip [("ping", .vInt 1)] 4 = .ok ([("ping", .vInt 1)], 4) :=
  requestMetadataRoundTrip [("ping", .vInt 1)] rfl 4 (Or.inr (by decide))

/-- C4: the four converters are all or nothing; whenever one returns an
error the same call yields no success value. -/
theorem conversionAllOrNothing :
    (∀ c f e, upconvertRequestMetadata c f = .error e →
       resultIsOk (upconvertRequestMetadata c f) = false) ∧
    (∀ c m e, downconvertRequestMetadata c m = .error e →
       resultIsOk (downconvertRequestMetadata c m) = false) ∧
    (∀ r e, upconvertReplyMetadata r = .error e →
       resultIsOk (upconvertReplyMetadata r) = false) ∧
    (∀ r m e, downconvertReplyMetadata r m = .error e →
       resultIsOk (downconvertReplyMetadata r m) = false) := by
  refine ⟨?_, ?_, ?_, ?_⟩
  · intro c f e h; rw [h]; rfl
  · intro c m e h; rw [h]; rfl
  · intro r e h; rw [h]; rfl
  · intro r m e h; rw [h]; rfl

/-- Witness for conversionAllOrNothing at one concrete erroring input per
converter. -/
theorem conversionAllOrNothingWitness :
    resultIsOk (upconvertRequestMetadata [("maxTimeMS", .vString "oops")] 0) = false ∧
    resultIsOk (downconvertRequestMetadata [] [("junk", .vInt 1)]) = false ∧
    resultIsOk (upconvertReplyMetadata [("gleStats", .vInt 1)]) = false ∧
    resultIsOk (downconvertReplyMetadata [] [("junk", .vInt 1)]) = false :=
  ⟨conversionAllOrNothing.1 [("maxTimeMS", .vString "oops")] 0
     (.malformedMetadataField "maxTimeMS") rfl,
   conversionAllOrNothing.2.1 [] [("junk", .vInt 1)] (.unknownMetadataField "junk") rfl,
   conversionAllOrNothing.2.2.1 [("gleStats", .vInt 1)] (.malformedMetadataField "gleStats") rfl,
   conversionAllOrNothing.2.2.2 [] [("junk", .vInt 1)] (.unknownMetadataField "junk") rfl⟩

/-- C5: the secondary read indication maps identically from either legacy
carrier, the slaveOk command field or the secondary read flags bit. -/
theorem secondaryOkBitFidelity (F : Nat) (hF : F.testBit secondaryOkFlagBit = true) :
    upconvertRequestMetadata [("ping", .vInt 1), ("slaveOk", .vBool true)] 0 =
      .ok ([("ping", .vInt 1)], [("$secondaryOk", .vBool true)]) ∧
    upconvertRequestMetadata [("ping", .vInt 1)] F =
      .ok ([("ping", .vInt 1)], [("$secondaryOk", .vBool true)]) := by
  refine ⟨rfl, ?_⟩
  have hup : upconvertFields requestFieldTable [("ping", .vInt 1)] =
      .ok ([("ping", .vInt 1)], []) := rfl
  simp [upconvertRequestMetadata, hup, hF, setField]

/-- Witness for secondaryOkBitFidelity at the flags word four, whose only
set bit is the secondary read bit. -/
theorem secondaryOkBitFidelityWitness :
    Nat.testBit 4 secondaryOkFlagBit = true ∧
    upconvertRequestMetadata [("ping", .vInt 1)] 4 =
      .ok ([("ping", .vInt 1)], [("$secondaryOk", .vBool true)]) :=
  ⟨by decide, (secondaryOkBitFidelity 4 (by decide)).2⟩

/-- C10 counterexample: a maxTimeMS field is not left in the command
document by upconvertRequestMetadata; it is moved into the metadata
document, so the metadata document holds more than the secondary read key. -/
theorem fullMappingTableWiredCounterexample :
    upconvertRequestMetadata [("maxTimeMS", .vInt 1000)] 0 =
      .ok ([], [("$maxTimeMS", .vInt 1000)]) ∧
    hasKey [] "maxTimeMS" = false ∧
    hasKey [("$maxTimeMS", BSONValue.vInt 1000)] "$maxTimeMS" = true :=
  ⟨rfl, rfl, rfl⟩

/-- C10 (amended): the whole mapping table is wired in the modelled
converters, per the spec resolution of the header TODO comment: each mapped
request field moves into the metadata document, and the reply converter
moves gleStats. -/
theorem fullMappingTableWired (p g : List (String × BSONValue)) (us rs : List BSONValue)
    (n : Int) :
    upconvertRequestMetadata [("$readPreference", .vDoc p)] 0 =
      .ok ([], [("$readPreference", .vDoc p)]) ∧
    upconvertRequestMetadata [("$impersonatedUsers", .vArray us)] 0 =
      .ok ([], [("$impersonatedUsers", .vArray us)]) ∧
    upconvertRequestMetadata [("$impersonatedRoles", .vArray rs)] 0 =
      .ok ([], [("$impersonatedRoles", .vArray rs)]) ∧
    upconvertRequestMetadata [("maxTimeMS", .vInt n)] 0 =
      .ok ([], [("$maxTimeMS", .vInt n)]) ∧
    upconvertReplyMetadata [("gleStats", .vDoc g)] =
      .ok ([], [("$gleStats", .vDoc g)]) :=
  ⟨rfl, rfl, rfl, rfl, rfl⟩

theorem upconvertRequestMetadata_doc :
    ∀ c f doc meta, upconvertRequestMetadata c f = .ok (doc, meta) →
      doc = c.filter (fun g => !(isRequestLegacyKey g.1)) := by
  intro c f doc meta h
  cases hup : upconvertFields requestFieldTable c with
  | ok p =>
    obtain ⟨c2, m2⟩ := p
    have hfil := upconvertFields_filter requestFieldTable c c2 m2 hup
    simp only [upconvertRequestMetadata, hup] at h
    split at h <;>
      (simp only [Except.ok.injEq, Prod.mk.injEq] at h
       rw [← h.1]
       exact hfil)
  | error e =>
    simp only [upconvertRequestMetadata, hup] at h
    cases h

theorem upconvertReplyMetadata_doc :
    ∀ r doc meta, upconvertReplyMetadata r = .ok (doc, meta) →
      doc = r.filter (fun g => !(isReplyLegacyKey g.1)) := by
  intro r doc meta h
  exact upconvertFields_filter replyFieldTable r doc meta h

theorem downconvertRequestMetadata_doc :
    ∀ c m doc flags, downconvertRequestMetadata c m = .ok (doc, flags) →
      ∃ fields, downconvertRequestFields m = .ok (fields, flags) ∧ doc = c ++ fields ∧
        ∀ g ∈ fields, isRequestLegacyKey g.1 = true := by
  intro c m doc flags h
  cases hdf : downconvertRequestFields m with
  | ok p =>
    obtain ⟨fields, fl⟩ := p
    simp only [downconvertRequestMetadata, hdf, Except.ok.injEq, Prod.mk.injEq] at h
    obtain ⟨hdoc, hfl⟩ := h
    refine ⟨fields, by rw [hfl], hdoc.symm, ?_⟩
    exact (downconvertRequestFields_ok_spec m (fields, fl) hdf).2
  | error e =>
    simp only [downconvertRequestMetadata, hdf] at h
    cases h

theorem downconvertReplyMetadata_doc :
    ∀ r m doc, downconvertReplyMetadata r m = .ok doc →
      ∃ fields, downconvertReplyFields m = .ok fields ∧ doc = r ++ fields ∧
        ∀ g ∈ fields, isReplyLegacyKey g.1 = true := by
  intro r m doc h
  cases hdf : downconvertReplyFields m with
  | ok fields =>
    simp only [downconvertReplyMetadata, hdf, Except.ok.injEq] at h
    refine ⟨fields, rfl, h.symm, ?_⟩
    exact (downconvertReplyFields_ok_spec m fields hdf).2
  | error e =>
    simp only [downconvertReplyMetadata, hdf] at h
    cases h

/-- C2: each of the four converters copies every field whose key is not
named in the mapping table to the output document unchanged, exactly once
and in its original relative order with respect to the other pass through
fields. -/
theorem passThroughFieldsInvariant :
    (∀ c f doc meta, upconvertRequestMetadata c f = .ok (doc, meta) →
       doc.filter (fun g => !(isRequestLegacyKey g.1)) =
         c.filter (fun g => !(isRequestLegacyKey g.1))) ∧
    (∀ c m doc flags, downconvertRequestMetadata c m = .ok (doc, flags) →
       doc.filter (fun g => !(isRequestLegacyKey g.1)) =
         c.filter (fun g => !(isRequestLegacyKey g.1))) ∧
    (∀ r doc meta, upconvertReplyMetadata r = .ok (doc, meta) →
       doc.filter (fun g => !(isReplyLegacyKey g.1)) =
         r.filter (fun g => !(isReplyLegacyKey g.1))) ∧
    (∀ r m doc, downconvertReplyMetadata r m = .ok doc →
       doc.filter (fun g => !(isReplyLegacyKey g.1)) =
         r.filter (fun g => !(isReplyLegacyKey g.1))) := by
  refine ⟨?_, ?_, ?_, ?_⟩
  · intro c f doc meta h
    rw [upconvertRequestMetadata_doc c f doc meta h]
    exact filter_filter_self _ c
  · intro c m doc flags h
    obtain ⟨fields, hdf, hdoc, hleg⟩ := downconvertRequestMetadata_doc c m doc flags h
    rw [hdoc, List.filter_append]
    have hnil : fields.filter (fun g => !(isRequestLegacyKey g.1)) = [] := by
      simp only [List.filter_eq_nil_iff]
      intro g hg
      simp [hleg g hg]
    rw [hnil, List.append_nil]
  · intro r doc meta h
    rw [upconvertReplyMetadata_doc r doc meta h]
    exact filter_filter_self _ r
  · intro r m doc h
    obtain ⟨fields, hdf, hdoc, hleg⟩ := downconvertReplyMetadata_doc r m doc h
    rw [hdoc, List.filter_append]
    have hnil : fields.filter (fun g => !(isReplyLegacyKey g.1)) = [] := by
      simp only [List.filter_eq_nil_iff]
      intro g hg
      simp [hleg g hg]
    rw [hnil, List.append_nil]

/-- Witness for passThroughFieldsInvariant, one concrete conversion per
converter, each moving one mapped field past one untouched field. -/
theorem passThroughFieldsInvariantWitness :
    ([("ping", BSONValue.vInt 1)] : BSONObj).filter (fun g => !(isRequestLegacyKey g.1)) =
      ([("maxTimeMS", BSONValue.vInt 5), ("ping", BSONValue.vInt 1)] : BSONObj).filter
        (fun g => !(isRequestLegacyKey g.1)) ∧
    ([("find", BSONValue.vString "c"), ("maxTimeMS", BSONValue.vInt 1000)] : BSONObj).filter
        (fun g => !(isRequestLegacyKey g.1)) =
      ([("find", BSONValue.vString "c")] : BSONObj).filter
        (fun g => !(isRequestLegacyKey g.1)) ∧
    ([("ok", BSONValue.vInt 1)] : BSONObj).filter (fun g => !(isReplyLegacyKey g.1)) =
      ([("ok", BSONValue.vInt 1), ("gleStats", BSONValue.vDoc [])] : BSONObj).filter
        (fun g => !(isReplyLegacyKey g.1)) ∧
    ([("ok", BSONValue.vInt 1), ("gleStats", BSONValue.vDoc [])] : BSONObj).filter
        (fun g => !(isReplyLegacyKey g.1)) =
      ([("ok", BSONValue.vInt 1)] : BSONObj).filter (fun g => !(isReplyLegacyKey g.1)) :=
  ⟨passThroughFieldsInvariant.1 [("maxTimeMS", .vInt 5), ("ping", .vInt 1)] 0
     [("ping", .vInt 1)] [("$maxTimeMS", .vInt 5)] rfl,
   passThroughFieldsInvariant.2.1 [("find", .vString "c")] [("$maxTimeMS", .vInt 1000)]
     [("find", .vString "c"), ("maxTimeMS", .vInt 1000)] 0 rfl,
   passThroughFieldsInvariant.2.2.1 [("ok", .vInt 1), ("gleStats", .vDoc [])]
     [("ok", .vInt 1)] [("$gleStats", .vDoc [])] rfl,
   passThroughFieldsInvariant.2.2.2 [("ok", .vInt 1)] [("$gleStats", .vDoc [])]
     [("ok", .vInt 1), ("gleStats", .vDoc [])] rfl⟩

/-- C3: in every document pair a successful conversion produces, no mapped
field sits in the legacy location and the metadata document at once; the
upconverters strip the legacy key when inserting the metadata key, and the
downconverters consume every metadata document field into its legacy
location. -/
theorem noFieldInBothLocations :
    (∀ c f doc meta, upconvertRequestMetadata c f = .ok (doc, meta) →
       ∀ d ∈ requestFieldTable,
         ¬(hasKey doc d.legacyKey = true ∧ hasKey meta d.metadataKey = true)) ∧
    (∀ r doc meta, upconvertReplyMetadata r = .ok (doc, meta) →
       ∀ d ∈ replyFieldTable,
         ¬(hasKey doc d.legacyKey = true ∧ hasKey meta d.metadataKey = true)) ∧
    (∀ c m out, downconvertRequestMetadata c m = .ok out →
       ∀ g ∈ m, isRequestMetadataKey g.1 = true) ∧
    (∀ r m out, downconvertReplyMetadata r m = .ok out →
       ∀ g ∈ m, isReplyMetadataKey g.1 = true) := by
  refine ⟨?_, ?_, ?_, ?_⟩
  · intro c f doc meta h d hd hcontra
    obtain ⟨h1, _⟩ := hcontra
    rw [upconvertRequestMetadata_doc c f doc meta h, hasKey] at h1
    obtain ⟨g, hg, hgk⟩ := List.any_eq_true.mp h1
    obtain ⟨hgc, hgp⟩ := List.mem_filter.mp hg
    have hkey : g.1 = d.legacyKey := by simpa using hgk
    have hsome : isRequestLegacyKey g.1 = true := by
      rw [isRequestLegacyKey]
      exact find?_isSome_of_mem _ _ d hd (by simp [hkey])
    simp [hsome] at hgp
  · intro r doc meta h d hd hcontra
    obtain ⟨h1, _⟩ := hcontra
    rw [upconvertReplyMetadata_doc r doc meta h, hasKey] at h1
    obtain ⟨g, hg, hgk⟩ := List.any_eq_true.mp h1
    obtain ⟨hgc, hgp⟩ := List.mem_filter.mp hg
    have hkey : g.1 = d.legacyKey := by simpa using hgk
    have hsome : isReplyLegacyKey g.1 = true := by
      rw [isReplyLegacyKey]
      exact find?_isSome_of_mem _ _ d hd (by simp [hkey])
    simp [hsome] at hgp
  · intro c m out h g hg
    cases hdf : downconvertRequestFields m with
    | ok p => exact (downconvertRequestFields_ok_spec m p hdf).1 g hg
    | error e => simp only [downconvertRequestMetadata, hdf] at h; cases h
  · intro r m out h g hg
    cases hdf : downconvertReplyFields m with
    | ok fields => exact (downconvertReplyFields_ok_spec m fields hdf).1 g hg
    | error e => simp only [downconvertReplyMetadata, hdf] at h; cases h

/-- Witness for noFieldInBothLocations at one concrete successful
conversion per conjunct. -/
theorem noFieldInBothLocationsWitness :
    (¬(hasKey [("ping", BSONValue.vInt 1)] "maxTimeMS" = true ∧
       hasKey [("$maxTimeMS", BSONValue.vInt 5)] "$maxTimeMS" = true)) ∧
    (¬(hasKey [("ok", BSONValue.vInt 1)] "gleStats" = true ∧
       hasKey [("$gleStats", BSONValue.vDoc [])] "$gleStats" = true)) ∧
    isRequestMetadataKey "$maxTimeMS" = true ∧
    isReplyMetadataKey "$gleStats" = true :=
  ⟨noFieldInBothLocations.1 [("maxTimeMS", .vInt 5), ("ping", .vInt 1)] 0
     [("ping", .vInt 1)] [("$maxTimeMS", .vInt 5)] rfl
     ⟨"maxTimeMS", "$maxTimeMS", .kInt⟩ (by simp [requestFieldTable]),
   noFieldInBothLocations.2.1 [("ok", .vInt 1), ("gleStats", .vDoc [])]
     [("ok", .vInt 1)] [("$gleStats", .vDoc [])] rfl
     ⟨"gleStats", "$gleStats", .kDoc⟩ (by simp [replyFieldTable]),
   noFieldInBothLocations.2.2.1 [] [("$maxTimeMS", .vInt 5)]
     ([("maxTimeMS", .vInt 5)], 0) rfl ("$maxTimeMS", .vInt 5) (by simp),
   noFieldInBothLocations.2.2.2 [] [("$gleStats", .vDoc [])]
     [("gleStats", .vDoc [])] rfl ("$gleStats", .vDoc []) (by simp)⟩

/-- C6: whenever a mapped legacy field is present with a value kind
incompatible with the kind its descriptor expects, upconvertRequestMetadata
returns a malformedMetadataField error; every such error names a mapped
field that is present in the input, and there is no partial output; absence
of every mapped field is never an error. -/
theorem malformedMetadataFieldReporting :
    upconvertRequestMetadata [("maxTimeMS", .vString "oops")] 0 =
      .error (.malformedMetadataField "maxTimeMS") ∧
    (∀ c f k v d, (k, v) ∈ c →
       requestFieldTable.find? (fun d2 => d2.legacyKey == k) = some d →
       v.kind ≠ d.expectedKind →
       resultIsMalformedFieldError (upconvertRequestMetadata c f) = true) ∧
    (∀ c f e, upconvertRequestMetadata c f = .error e →
       isMalformedError e = true ∧ hasKey c (errorFieldName e) = true ∧
       isRequestLegacyKey (errorFieldName e) = true) ∧
    (∀ c f, hasNoRequestLegacyKeys c = true →
       resultIsOk (upconvertRequestMetadata c f) = true) := by
  refine ⟨rfl, ?_, ?_, ?_⟩
  · intro c f k v d hmem hfind hkind
    obtain ⟨e2, he2⟩ :=
      upconvertFields_error_of_badfield requestFieldTable c k v d hmem hfind hkind
    obtain ⟨k2, v2, d2, he, _, _, _⟩ := upconvertFields_error requestFieldTable c e2 he2
    subst he
    simp only [upconvertRequestMetadata, he2]
    rfl
  · intro c f e h
    cases hup : upconvertFields requestFieldTable c with
    | ok p =>
      obtain ⟨c2, m2⟩ := p
      simp only [upconvertRequestMetadata, hup] at h
      split at h <;> cases h
    | error e2 =>
      simp only [upconvertRequestMetadata, hup, Except.error.injEq] at h
      obtain ⟨k, v, d, he, hmem, hfind, hkind⟩ :=
        upconvertFields_error requestFieldTable c e2 hup
      have hE : e = .malformedMetadataField k := by rw [← h, he]
      subst hE
      refine ⟨rfl, ?_, ?_⟩
      · rw [hasKey]
        exact List.any_eq_true.mpr ⟨(k, v), hmem, by simp [errorFieldName]⟩
      · rw [isRequestLegacyKey]
        show (requestFieldTable.find? (fun d2 => d2.legacyKey == k)).isSome = true
        rw [hfind]
        rfl
  · intro c f hc
    have hup := upconvertFields_clean requestFieldTable c
      ((hasNoRequestLegacyKeys_iff c).mp hc)
    simp only [upconvertRequestMetadata, hup]
    split <;> rfl

/-- Witness for malformedMetadataFieldReporting: a wrong kind readPreference
field makes the converter fail with a malformed field error, the concrete
maxTimeMS error names a present mapped field, and a clean input succeeds. -/
theorem malformedMetadataFieldReportingWitness :
    resultIsMalformedFieldError
      (upconvertRequestMetadata [("$readPreference", .vInt 7)] 0) = true ∧
    (isMalformedError (.malformedMetadataField "maxTimeMS") = true ∧
     hasKey [("maxTimeMS", BSONValue.vString "oops")]
       (errorFieldName (.malformedMetadataField "maxTimeMS")) = true ∧
     isRequestLegacyKey (errorFieldName (.malformedMetadataField "maxTimeMS")) = true) ∧
    resultIsOk (upconvertRequestMetadata [("ping", .vInt 1)] 0) = true :=
  ⟨malformedMetadataFieldReporting.2.1 [("$readPreference", .vInt 7)] 0
     "$readPreference" (.vInt 7) ⟨"$readPreference", "$readPreference", .kDoc⟩
     (by simp) rfl (by decide),
   malformedMetadataFieldReporting.2.2.1 [("maxTimeMS", .vString "oops")] 0
     (.malformedMetadataField "maxTimeMS") rfl,
   malformedMetadataFieldReporting.2.2.2 [("ping", .vInt 1)] 0 rfl⟩

/-- C7: downconvertRequestMetadata succeeds only when every key of the
metadata document has a legacy location in the table, and a metadata
document holding an unmapped key whose mapped fields are well kinded is
rejected with an unknownMetadataField error, never silently dropped. -/
theorem unknownMetadataFieldRejection :
    (∀ c m, resultIsOk (downconvertRequestMetadata c m) = true →
       m.all (fun g => isRequestMetadataKey g.1) = true) ∧
    (∀ c m, m.any (fun g => !(isRequestMetadataKey g.1)) = true →
       mappedRequestFieldsWellKinded m = true →
       resultIsUnknownFieldError (downconvertRequestMetadata c m) = true) := by
  constructor
  · intro c m h
    cases hdf : downconvertRequestFields m with
    | ok p =>
      rw [List.all_eq_true]
      intro g hg
      exact (downconvertRequestFields_ok_spec m p hdf).1 g hg
    | error e =>
      simp only [downconvertRequestMetadata, hdf] at h
      exact absurd h Bool.false_ne_true
  · intro c m h1 h2
    have hu := downconvertRequestFields_unknown m h1 h2
    cases hdf : downconvertRequestFields m with
    | ok p =>
      rw [hdf] at hu
      exact absurd hu Bool.false_ne_true
    | error e =>
      rw [hdf] at hu
      simpa [downconvertRequestMetadata, hdf] using hu

/-- Witness for unknownMetadataFieldRejection at a fully mapped and an
unmapped concrete metadata document. -/
theorem unknownMetadataFieldRejectionWitness :
    ([("$maxTimeMS", BSONValue.vInt 5)] : BSONObj).all
      (fun g => isRequestMetadataKey g.1) = true ∧
    resultIsUnknownFieldError (downconvertRequestMetadata [] [("junk", .vInt 1)]) = true :=
  ⟨unknownMetadataFieldRejection.1 [] [("$maxTimeMS", .vInt 5)] rfl,
   unknownMetadataFieldRejection.2 [] [("junk", .vInt 1)] rfl rfl⟩

/-- C8: writeRequestMetadata runs the writer hooks in registration order
and stops at the first failure, returning that hook error, with the builder
holding exactly what the earlier hooks wrote and nothing from later hooks. -/
theorem writerHookOrdering (txn : OperationContext) (bob b1 : BSONObj)
    (w1 w2 w3 : RequestMetadataWriter) (e : MetadataError)
    (h1 : w1 (writeContextMetadata txn bob) = .ok b1) (h2 : w2 b1 = .error e) :
    writeRequestMetadata txn [w1, w2, w3] bob = (b1, some e) := by
  simp [writeRequestMetadata, runRequestMetadataWriters, h1, h2]

/-- Witness for writerHookOrdering with three concrete writers of which
the second fails. -/
theorem writerHookOrderingWitness :
    writeRequestMetadata ⟨false⟩
      [fun bob => .ok (bob ++ [("a", .vInt 1)]),
       fun _ => .error (.hookError "hook failed"),
       fun bob => .ok (bob ++ [("c", .vInt 3)])] [] =
      ([("a", BSONValue.vInt 1)], some (.hookError "hook failed")) :=
  writerHookOrdering ⟨false⟩ [] [("a", .vInt 1)]
    (fun bob => .ok (bob ++ [("a", .vInt 1)]))
    (fun _ => .error (.hookError "hook failed"))
    (fun bob => .ok (bob ++ [("c", .vInt 3)]))
    (.hookError "hook failed") rfl rfl

/-- C9 counterexample: when gleStats is not the last reply field, the
downconversion of the upconverted pair appends gleStats at the end, so the
reconstructed reply differs from the original by field order. -/
theorem replyRoundTripOrderCounterexample :
    upconvertReplyMetadata [("gleStats", .vDoc []), ("ok", .vInt 1)] =
      .ok ([("ok", .vInt 1)], [("$gleStats", .vDoc [])]) ∧
    downconvertReplyMetadata [("ok", .vInt 1)] [("$gleStats", .vDoc [])] =
      .ok [("ok", .vInt 1), ("gleStats", .vDoc [])] ∧
    ([("ok", BSONValue.vInt 1), ("gleStats", BSONValue.vDoc [])] : BSONObj) ≠
      [("gleStats", .vDoc []), ("ok", .vInt 1)] := by
  refine ⟨rfl, rfl, ?_⟩
  intro hcontra
  injection hcontra with h1 h2
  injection h1 with h3 h4
  exact absurd h3 (by decide)

/-- C9 (amended): the reply converters are mutually inverse on documents
whose only mapped key is gleStats, provided gleStats is the last field of
the legacy reply, where downconversion reinserts it. -/
theorem replyMetadataRoundTrip (r : BSONObj) (g : List (String × BSONValue))
    (h : hasNoReplyLegacyKeys r = true) :
    (upconvertReplyMetadata r = .ok (r, []) ∧
     downconvertReplyMetadata r [] = .ok r) ∧
    (upconvertReplyMetadata (r ++ [("gleStats", .vDoc g)]) =
       .ok (r, [("$gleStats", .vDoc g)]) ∧
     downconvertReplyMetadata r [("$gleStats", .vDoc g)] =
       .ok (r ++ [("gleStats", .vDoc g)])) := by
  have hclean := (hasNoReplyLegacyKeys_iff r).mp h
  refine ⟨⟨?_, ?_⟩, ?_, ?_⟩
  · exact upconvertFields_clean replyFieldTable r hclean
  · show Except.ok (r ++ []) = Except.ok r
    rw [List.append_nil]
  · have happ := upconvertFields_append_clean replyFieldTable r
      [("gleStats", .vDoc g)] hclean
    rw [show upconvertFields replyFieldTable [("gleStats", BSONValue.vDoc g)] =
      .ok ([], [("$gleStats", BSONValue.vDoc g)]) from rfl] at happ
    simpa [upconvertReplyMetadata] using happ
  · rfl

/-- Witness for replyMetadataRoundTrip instantiating the concrete scenario
of the specification. -/
theorem replyMetadataRoundTripWitness :
    (upconvertReplyMetadata [("ok", .vInt 1)] = .ok ([("ok", .vInt 1)], []) ∧
     downconvertReplyMetadata [("ok", .vInt 1)] [] = .ok [("ok", .vInt 1)]) ∧
    (upconvertReplyMetadata [("ok", .vInt 1), ("gleStats", .vDoc [("n", .vInt 1)])] =
       .ok ([("ok", .vInt 1)], [("$gleStats", .vDoc [("n", .vInt 1)])]) ∧
     downconvertReplyMetadata [("ok", .vInt 1)] [("$gleStats", .vDoc [("n", .vInt 1)])] =
       .ok [("ok", .vInt 1), ("gleStats", .vDoc [("n", .vInt 1)])]) :=
  replyMetadataRoundTrip [("ok", .vInt 1)] [("n", .vInt 1)] rfl

end MongoRpc
